import Mathlib

/-!
Verification development for the debtcoder file-drop service.

The repository contains a browser dashboard (React/TypeScript, under
`dashboard/src/`) and documents a FastAPI backend exposing a sandboxed
virtual filesystem with a whitelisted command shell.  The dashboard's pure
helpers (`appendTerminal`, `formatBytes`, `handleResponse`) are embedded
directly from `dashboard/src/App.tsx` and `dashboard/src/api.ts`.  The
backend core (`app/main.py`: path resolver, filesystem engine, command
parser, command dispatcher) is not part of the checked-in sources, so those
components are modelled from the specification, as marked on each
definition.
-/

namespace Dashboard

/-- Embeds `appendTerminal` from `dashboard/src/App.tsx`:
`const next = [...current, ...lines]; return next.slice(-400);`.
JavaScript `xs.slice(-400)` keeps the last `min(400, xs.length)` elements,
i.e. drops `xs.length - 400` (truncated at zero) from the front. -/
def appendTerminal (current lines : List String) : List String :=
  let next := current ++ lines
  next.drop (next.length - 400)

/-- Embeds the `units` array of `formatBytes` in `dashboard/src/api.ts`. -/
def fbUnits : List String := ["B", "KB", "MB", "GB"]

/-- Embeds the unit index `Math.floor(Math.log(bytes) / Math.log(1024))` of
`formatBytes` in `dashboard/src/api.ts`, in exact real arithmetic: for
`bytes ≥ 1`, `⌊log bytes / log 1024⌋ = Nat.log 1024 bytes`. -/
def fbIdx (bytes : Nat) : Nat := Nat.log 1024 bytes

/-- Embeds `value.toFixed(value >= 10 || idx === 0 ? 0 : 1)` of
`formatBytes` in `dashboard/src/api.ts`, where
`value = bytes / Math.pow(1024, idx)`: round the exact rational
`bytes / 1024^idx` to zero decimals when `value ≥ 10` or `idx = 0`,
else to one decimal (round-to-nearest, half up). -/
def fbValueString (bytes idx : Nat) : String :=
  let denom := 1024 ^ idx
  if 10 * denom ≤ bytes ∨ idx = 0 then
    toString ((bytes + denom / 2) / denom)
  else
    let tenths := (10 * bytes + denom / 2) / denom
    toString (tenths / 10) ++ "." ++ toString (tenths % 10)

/-- Embeds `formatBytes` from `dashboard/src/api.ts`:
`if (bytes === 0) return '0 B'; const idx = Math.floor(Math.log(bytes)/Math.log(1024));
const value = bytes / Math.pow(1024, idx);
return value.toFixed(...) + ' ' + units[idx];`.
When `idx` is out of the range of `units`, JavaScript `units[idx]` is
`undefined` and the template literal renders the text `undefined`. -/
def formatBytes (bytes : Nat) : String :=
  if bytes = 0 then "0 B"
  else fbValueString bytes (fbIdx bytes) ++ " " ++ (fbUnits.getD (fbIdx bytes) "undefined")

/-- Shallow model of a `fetch` `Response` as consumed by `handleResponse`
in `dashboard/src/api.ts`: the `ok` flag, the numeric `status`, the body
text (`await response.text()` / the text that `response.json()` would
parse), and the `content-type` header (`null` when absent). -/
structure HttpResponse where
  ok : Bool
  status : Nat
  bodyText : String
  contentType : Option String

/-- Result of `handleResponse` on an `ok` response: the body handed to
`response.json()` (JSON branch) or returned raw via `response.text()`
(text branch).  JSON parsing itself is a Web API external to this
repository and is modelled as tagging the body. -/
inductive HandledBody where
  | jsonBody (raw : String)
  | textBody (raw : String)
deriving DecidableEq, Repr

/-- Model of JavaScript `haystack.includes(needle)`: `needle` occurs as a
contiguous substring, i.e. it is a prefix of some suffix of `haystack`. -/
def strIncludes (haystack needle : String) : Bool :=
  haystack.data.tails.any (fun t => needle.data.isPrefixOf t)

/-- Embeds the content-type test of `handleResponse` in
`dashboard/src/api.ts`: `contentType?.includes('application/json')`;
a `null` header (optional chaining) selects the text branch. -/
def ctIsJson (ct : Option String) : Bool :=
  match ct with
  | some s => strIncludes s "application/json"
  | none => false

/-- Embeds `handleResponse` from `dashboard/src/api.ts`:
`if (!response.ok) { const detail = await response.text();
throw new Error(detail || "Request failed with " + response.status); }`
then JSON-parse when the content-type includes `application/json`,
else return the body text.  The empty string is the only falsy string,
so `detail || fallback` is `fallback` exactly when the body is empty. -/
def handleResponse (r : HttpResponse) : Except String HandledBody :=
  if r.ok = false then
    .error (if r.bodyText = "" then "Request failed with " ++ toString r.status else r.bodyText)
  else if ctIsJson r.contentType then
    .ok (.jsonBody r.bodyText)
  else
    .ok (.textBody r.bodyText)

end Dashboard

namespace FileDrop

/-!
The backend core (`app/main.py`: Path Resolver, Filesystem Operations
Engine, Command Parser, Command Dispatcher) is not among the checked-in
sources — the repository carries only its documentation, deployment
configuration and the dashboard client.  Every definition in this
namespace is therefore modelled from the specification, as its doc
comment records.
-/

/-- An absolute filesystem path, as its list of components from the
filesystem root; `Root` is one such path, and a path lies inside `Root`
exactly when `Root` is a prefix of its component list. -/
abbrev APath := List String

/-- Modelled from the spec: the error taxonomy of §7 for the missing
backend `app/main.py` (all recoverable, none process-fatal). -/
inductive FsErr where
  | pathEscape
  | notFound
  | notADirectory
  | isADirectory
  | alreadyExists
  | tooLarge
  | encodingError
  | ioFailure
deriving DecidableEq, Repr

/-- Modelled from the spec: the human-readable error kind surfaced to the
caller (§7: "surface the error kind and a human-readable message"). -/
def errMsg : FsErr → String
  | .pathEscape => "PathEscape"
  | .notFound => "NotFound"
  | .notADirectory => "NotADirectory"
  | .isADirectory => "IsADirectory"
  | .alreadyExists => "AlreadyExists"
  | .tooLarge => "TooLarge"
  | .encodingError => "EncodingError"
  | .ioFailure => "IOFailure"

/-- Splits a client-supplied relative path on `/` into components
(the spec's RelativePath uses forward slashes only). -/
def splitSlashAux : List Char → List Char → List String
  | [], acc => [String.mk acc.reverse]
  | c :: rest, acc =>
    if c = '/' then String.mk acc.reverse :: splitSlashAux rest []
    else splitSlashAux rest (c :: acc)

/-- Components of a relative path string, split on `/`. -/
def splitSlash (rel : String) : List String := splitSlashAux rel.data []

/-- True when the client string contains a null byte (rejected outright
by the resolver, §4.1). -/
def hasNullByte (rel : String) : Bool := rel.data.any (fun c => c = Char.ofNat 0)

/-- True when the client string starts with the absolute-path marker `/`
(rejected outright by the resolver, §4.1; RelativePath has no leading
slash, §3). -/
def startsWithSlash (rel : String) : Bool :=
  match rel.data with
  | [] => false
  | c :: _ => c = '/'

/-- Modelled from the spec: lexical canonicalization of §4.1 — resolve
`.` and `..` textually after joining the components to the (already
canonical) base: `.` and empty components are dropped, `..` pops one
component (popping past the filesystem root stays at the root, as
`realpath` does). -/
def lexNorm (acc : APath) : List String → APath
  | [] => acc
  | c :: rest =>
    if c = "." ∨ c = "" then lexNorm acc rest
    else if c = ".." then lexNorm acc.dropLast rest
    else lexNorm (acc ++ [c]) rest

/-- Modelled from the spec: the pure, pre-I/O stage of the §4.1 resolver
for the missing backend `app/main.py` — reject null bytes and
absolute-path markers outright, join to Root, canonicalize `.` and `..`
lexically, and require the result to be Root or a descendant of Root.
No filesystem state is consulted (the §8 property: zero I/O side effects
on rejected paths). -/
def resolveLex (root : APath) (rel : String) : Except FsErr APath :=
  if hasNullByte rel ∨ startsWithSlash rel then .error .pathEscape
  else
    let lex := lexNorm root (splitSlash rel)
    if root.isPrefixOf lex then .ok lex else .error .pathEscape

/-- Modelled from the spec: the symlink table of the live filesystem, for
the §4.1 requirement that symlink targets be resolved and re-checked
(a symlink at the first path points at the second, absolute, path). -/
structure SymFs where
  links : List (APath × APath)

/-- Looks up the symlink planted at a path, if any (one `lstat`-style
filesystem call in the real backend). -/
def lookupLink (st : SymFs) (p : APath) : Option APath :=
  (st.links.find? (fun e => e.1 == p)).map (fun e => e.2)

/-- Modelled from the spec: fuel-bounded canonicalization walk of §4.1 —
process the path component by component, following any symlink planted
at each intermediate prefix (substituting its absolute target), and
count one filesystem call per step.  Returns `none` when the fuel runs
out (a symlink cycle). -/
def walkFuel (st : SymFs) : Nat → APath → List String → Nat → Option APath × Nat
  | 0, _, _, calls => (none, calls)
  | _ + 1, acc, [], calls => (some acc, calls)
  | fuel + 1, acc, c :: rest, calls =>
    let step := if c = ".." then acc.dropLast
                else if c = "." ∨ c = "" then acc
                else acc ++ [c]
    match lookupLink st step with
    | some target => walkFuel st fuel [] (target ++ rest) (calls + 1)
    | none => walkFuel st fuel step rest (calls + 1)

/-- Fuel bound for the canonicalization walk, large enough for any
non-cyclic symlink configuration. -/
def resolveFuel (st : SymFs) (p : APath) : Nat :=
  (st.links.length + 1) * (p.length + st.links.foldr (fun e a => e.2.length + a) 0 + 1) + 1

/-- Modelled from the spec: `resolve(relativePath) -> AbsolutePath |
Failure(PathEscape)` of §4.1 for the missing backend `app/main.py`.
The lexical stage rejects escapes before any filesystem access; the
canonicalization walk then resolves symlinks and the containment check
runs again on the fully resolved path.  The second component counts the
filesystem calls performed. -/
def resolve (root : APath) (st : SymFs) (rel : String) : Except FsErr APath × Nat :=
  match resolveLex root rel with
  | .error e => (.error e, 0)
  | .ok lex =>
    match walkFuel st (resolveFuel st lex) [] lex 0 with
    | (none, calls) => (.error .ioFailure, calls)
    | (some p, calls) =>
      if root.isPrefixOf p then (.ok p, calls) else (.error .pathEscape, calls)

/-- File metadata: the text content and the modification timestamp. -/
structure FileAttrs where
  content : String
  mtime : Nat
deriving DecidableEq, Repr

/-- A filesystem entry: a regular file or a directory. -/
inductive Entry where
  | file (attrs : FileAttrs)
  | dir (mtime : Nat)
deriving DecidableEq, Repr

/-- Modelled from the spec: the live directory tree under Root (§3, §6),
as a finite association of absolute paths to entries. -/
abbrev Fs := List (APath × Entry)

/-- The entry at a path, if present. -/
def lookupFs (fs : Fs) (p : APath) : Option Entry :=
  (fs.find? (fun e => e.1 == p)).map (fun e => e.2)

/-- Removes the entry at a path. -/
def eraseEntry (fs : Fs) (p : APath) : Fs :=
  fs.filter (fun e => e.1 != p)

/-- Sets the entry at a path, replacing any previous one. -/
def setEntry (fs : Fs) (p : APath) (v : Entry) : Fs :=
  (p, v) :: eraseEntry fs p

/-- Creates a directory at a path unless an entry already exists there
(one step of `os.makedirs`-style parent creation). -/
def ensureDir (fs : Fs) (q : APath) (now : Nat) : Fs :=
  match lookupFs fs q with
  | some _ => fs
  | none => (q, .dir now) :: fs

/-- Creates each listed directory in turn unless present. -/
def mkParentsAux (now : Nat) : Fs → List APath → Fs
  | fs, [] => fs
  | fs, q :: rest => mkParentsAux now (ensureDir fs q now) rest

/-- The proper ancestors of a path below the filesystem root: its
prefixes of positive length shorter than the path itself. -/
def parentsOf (p : APath) : List APath :=
  ((List.range p.length).filter (fun i => 0 < i)).map (fun i => p.take i)

/-- Modelled from the spec: §4.2 `writeText` "auto-creates missing parent
directories". -/
def mkParents (fs : Fs) (p : APath) (now : Nat) : Fs :=
  mkParentsAux now fs (parentsOf p)

/-- The TextPayload size limit of §3: 512 KiB = 524288 bytes when encoded
back to UTF-8. -/
def MAX_TEXT_BYTES : Nat := 524288

/-- Modelled from the spec: `writeText(path, TextPayload) -> {bytesWritten}`
of §4.2 for the missing backend `app/main.py` — validate the payload per
§3 before touching disk (oversized payloads are rejected with `TooLarge`
and no write occurs), auto-create missing parents, then write atomically
(modelled as one state update, which is what write-to-temp-then-rename
guarantees observers see).  A Lean `String` is UTF-8 by construction, so
the §3 `EncodingError` case is vacuous here.  Returns the result and the
filesystem state after the call. -/
def writeText (fs : Fs) (p : APath) (content : String) (now : Nat) :
    Except FsErr Nat × Fs :=
  if MAX_TEXT_BYTES < content.utf8ByteSize then (.error .tooLarge, fs)
  else (.ok content.utf8ByteSize, setEntry (mkParents fs p now) p (.file ⟨content, now⟩))

/-- Modelled from the spec: `readText(path) -> TextPayload` of §4.2 for
the missing backend `app/main.py` — `NotFound` when absent,
`NotADirectory` when the path is a directory (the spec's wording), and
`TooLarge` when the stored file exceeds 512 KiB. -/
def readText (fs : Fs) (p : APath) : Except FsErr String :=
  match lookupFs fs p with
  | none => .error .notFound
  | some (.dir _) => .error .notADirectory
  | some (.file a) =>
    if MAX_TEXT_BYTES < a.content.utf8ByteSize then .error .tooLarge
    else .ok a.content

/-- Modelled from the spec: `remove(path) -> {removed}` of §4.2 for the
missing backend `app/main.py` — removes a single file only, failing with
`NotFound` or `IsADirectory`. -/
def remove (fs : Fs) (p : APath) : Except FsErr Unit × Fs :=
  match lookupFs fs p with
  | none => (.error .notFound, fs)
  | some (.dir _) => (.error .isADirectory, fs)
  | some (.file _) => (.ok (), eraseEntry fs p)

/-- Modelled from the spec: `rename(sourcePath, destPath) -> {renamed}` of
§4.2 for the missing backend `app/main.py` — per the §8 property "a
rename onto an existing destination always fails with `AlreadyExists`"
the destination check comes first; a missing source fails with
`NotFound`; otherwise the entry moves, with no silent overwrite. -/
def rename (fs : Fs) (src dst : APath) : Except FsErr Unit × Fs :=
  match lookupFs fs dst with
  | some _ => (.error .alreadyExists, fs)
  | none =>
    match lookupFs fs src with
    | none => (.error .notFound, fs)
    | some e => (.ok (), setEntry (eraseEntry fs src) dst e)

/-- Modelled from the spec: the `touch` behaviour of §4.4 for the missing
backend `app/main.py` — on an existing file, a timestamp bump that
writes the current content back to itself (never truncating); on a
missing path, `writeText` with the empty payload; a directory is left
as is. -/
def touch (fs : Fs) (p : APath) (now : Nat) : Except FsErr Unit × Fs :=
  match lookupFs fs p with
  | some (.file a) => (.ok (), setEntry fs p (.file ⟨a.content, now⟩))
  | some (.dir _) => (.ok (), fs)
  | none =>
    match writeText fs p "" now with
    | (.ok _, fs1) => (.ok (), fs1)
    | (.error e, fs1) => (.error e, fs1)

/-- The text content stored at a path, when a file is there. -/
def contentAt (fs : Fs) (p : APath) : Option String :=
  match lookupFs fs p with
  | some (.file a) => some a.content
  | _ => none

/-- The FileEntry value of §3: path, directory flag, size in bytes
(`none` for directories, mirroring `FSListItem.size_bytes : number | null`
of `dashboard/src/api.ts`), and modification timestamp. -/
structure FileEntry where
  path : APath
  isDirectory : Bool
  sizeBytes : Option Nat
  modifiedAt : Nat
deriving DecidableEq, Repr

/-- True when `q` is a direct child of `parent`: one component longer and
extending it (the non-recursive listing boundary of §4.2). -/
def isChildOf (parent q : APath) : Bool :=
  q.length = parent.length + 1 && parent.isPrefixOf q

/-- The FileEntry produced for one directory child (§4.2: stat size and
mtime; directories report a null size). -/
def entryOf (q : APath) (e : Entry) : FileEntry :=
  match e with
  | .file a => ⟨q, false, some a.content.utf8ByteSize, a.mtime⟩
  | .dir m => ⟨q, true, none, m⟩

/-- Modelled from the spec: `list(path) -> sequence<FileEntry>` of §4.2
for the missing backend `app/main.py` — non-recursive, one entry per
direct child, `NotFound` when the path is absent, `NotADirectory` when
it is a file. -/
def listDir (fs : Fs) (p : APath) : Except FsErr (List FileEntry) :=
  match lookupFs fs p with
  | none => .error .notFound
  | some (.file _) => .error .notADirectory
  | some (.dir _) =>
    .ok ((fs.filter (fun e => isChildOf p e.1)).map (fun e => entryOf e.1 e.2))

/-- The command verbs whitelisted by §4.3. -/
inductive Verb where
  | ls
  | cat
  | rm
  | touch
  | mv
deriving DecidableEq, Repr

/-- Modelled from the spec: the fixed arity table of §4.3 — `ls` 0 args,
`cat` 1, `rm` 1, `touch` 1, `mv` 2. -/
def arity : Verb → Nat
  | .ls => 0
  | .cat => 1
  | .rm => 1
  | .touch => 1
  | .mv => 2

/-- The verb named by a token (case-sensitive, lowercase only, §4.3). -/
def verbOfToken (s : String) : Option Verb :=
  if s = "ls" then some .ls
  else if s = "cat" then some .cat
  else if s = "rm" then some .rm
  else if s = "touch" then some .touch
  else if s = "mv" then some .mv
  else none

/-- Splits on runs of whitespace, dropping empty tokens (§4.3
tokenization). -/
def splitWsAux : List Char → List Char → List String
  | [], acc => if acc.isEmpty then [] else [String.mk acc.reverse]
  | c :: rest, acc =>
    if c.isWhitespace then
      if acc.isEmpty then splitWsAux rest []
      else String.mk acc.reverse :: splitWsAux rest []
    else splitWsAux rest (c :: acc)

/-- The whitespace-separated tokens of a raw command line. -/
def tokenize (raw : String) : List String := splitWsAux raw.data []

/-- The CommandInvocation value of §3: the raw line, the verb, and the
positional arguments. -/
structure CommandInvocation where
  raw : String
  verb : Verb
  args : List String
deriving DecidableEq, Repr

/-- The §4.3 parse failures. -/
inductive ParseErr where
  | unknownCommand
  | badArgCount
deriving DecidableEq, Repr

/-- Modelled from the spec: `parse(raw) -> CommandInvocation |
Failure(UnknownCommand | BadArgCount)` of §4.3 for the missing backend
`app/main.py` — split on runs of whitespace, take the first token as the
verb, fail with `UnknownCommand` on a verb outside the table and with
`BadArgCount` on wrong arity.  The function takes no filesystem state:
both failures occur before any filesystem access. -/
def parse (raw : String) : Except ParseErr CommandInvocation :=
  match tokenize raw with
  | [] => .error .unknownCommand
  | v :: args =>
    match verbOfToken v with
    | none => .error .unknownCommand
    | some vb =>
      if args.length = arity vb then .ok ⟨raw, vb, args⟩
      else .error .badArgCount

/-- One output line of `ls` (§4.4): name, tab, `dir` or the size, tab,
the modification timestamp. -/
def formatEntryLine (e : FileEntry) : String :=
  e.path.getLastD "" ++ "\t" ++
    (match e.sizeBytes with
     | none => "dir"
     | some n => toString n) ++ "\t" ++ toString e.modifiedAt

/-- The content lines of `cat` (§4.4): content split on line breaks. -/
def splitLinesAux : List Char → List Char → List String
  | [], acc => [String.mk acc.reverse]
  | c :: rest, acc =>
    if c = '\n' then String.mk acc.reverse :: splitLinesAux rest []
    else splitLinesAux rest (c :: acc)

/-- Splits file content on newlines. -/
def splitLines (s : String) : List String := splitLinesAux s.data []

/-- Modelled from the spec: the Filesystem Operations Engine call selected
by one parsed command (§4.4), every path argument routed through the
Path Resolver.  Returns the raw engine outcome — output lines or a typed
failure — together with the filesystem state after the call.  The
catch-all arm is unreachable for parser-produced invocations (the parser
enforces the arity table first). -/
def engineCall (root : APath) (fs : Fs) (inv : CommandInvocation) (now : Nat) :
    Except FsErr (List String) × Fs :=
  match inv.verb, inv.args with
  | .ls, [] =>
    (match listDir fs root with
     | .error e => (.error e, fs)
     | .ok es => (.ok (es.map formatEntryLine), fs))
  | .cat, [f] =>
    (match resolveLex root f with
     | .error e => (.error e, fs)
     | .ok p =>
       match readText fs p with
       | .error e => (.error e, fs)
       | .ok content => (.ok (splitLines content), fs))
  | .rm, [f] =>
    (match resolveLex root f with
     | .error e => (.error e, fs)
     | .ok p =>
       match remove fs p with
       | (.error e, fs1) => (.error e, fs1)
       | (.ok _, fs1) => (.ok (["removed " ++ f]), fs1))
  | .touch, [f] =>
    (match resolveLex root f with
     | .error e => (.error e, fs)
     | .ok p =>
       match touch fs p now with
       | (.error e, fs1) => (.error e, fs1)
       | (.ok _, fs1) => (.ok ([]), fs1))
  | .mv, [a, b] =>
    (match resolveLex root a, resolveLex root b with
     | .error e, _ => (.error e, fs)
     | .ok _, .error e => (.error e, fs)
     | .ok pa, .ok pb =>
       match rename fs pa pb with
       | (.error e, fs1) => (.error e, fs1)
       | (.ok _, fs1) => (.ok (["renamed " ++ a ++ " -> " ++ b]), fs1))
  | _, _ => (.error .ioFailure, fs)

/-- The `{outputLines, error}` result of §4.4, mirroring
`UploadCommandResponse` (`output: string[]; error?: string | null`) of
`dashboard/src/api.ts`. -/
structure OperationResult where
  outputLines : List String
  error : Option String
deriving DecidableEq, Repr

/-- Modelled from the spec: `execute(CommandInvocation) -> {outputLines,
error}` of §4.4 for the missing backend `app/main.py` — every engine
failure is caught here and converted into the `error` field; a total
function, so no fault propagates past the dispatcher. -/
def execute (root : APath) (fs : Fs) (inv : CommandInvocation) (now : Nat) :
    OperationResult × Fs :=
  match engineCall root fs inv now with
  | (.ok lines, fs1) => (⟨lines, none⟩, fs1)
  | (.error e, fs1) => (⟨[], some (errMsg e)⟩, fs1)

end FileDrop

namespace FileDrop

/-- Looking a key up in a one-entry extension of the store. -/
theorem lookupFs_cons (k : APath) (v : Entry) (fs : Fs) (q : APath) :
    lookupFs ((k, v) :: fs) q = if k = q then some v else lookupFs fs q := by
  by_cases h : k = q
  · simp [lookupFs, List.find?_cons, h]
  · simp only [lookupFs, List.find?_cons]
    have hb : (k == q) = false := by simpa using h
    simp [hb, h]

/-- Erasing a key removes exactly that key. -/
theorem lookupFs_eraseEntry (fs : Fs) (p q : APath) :
    lookupFs (eraseEntry fs p) q = if p = q then none else lookupFs fs q := by
  induction fs with
  | nil => by_cases h : p = q <;> simp [eraseEntry, lookupFs, h]
  | cons hd tl ih =>
    obtain ⟨k, v⟩ := hd
    simp only [eraseEntry, List.filter_cons] at ih ⊢
    by_cases hk : k = p
    · subst hk
      simp only [bne_self_eq_false, Bool.false_eq_true, if_false, ih]
      by_cases hq : k = q <;> simp [hq, lookupFs_cons]
    · have hb : (k != p) = true := by simpa using hk
      rw [hb, if_pos rfl, lookupFs_cons, ih]
      by_cases hq : k = q
      · subst hq
        rw [if_pos rfl, if_neg (fun hh => hk hh.symm), lookupFs_cons, if_pos rfl]
      · rw [if_neg hq, lookupFs_cons, if_neg hq]

/-- Setting a key updates exactly that key. -/
theorem lookupFs_setEntry (fs : Fs) (p q : APath) (v : Entry) :
    lookupFs (setEntry fs p v) q = if p = q then some v else lookupFs fs q := by
  unfold setEntry
  rw [lookupFs_cons, lookupFs_eraseEntry]
  by_cases h : p = q <;> simp [h]

/-- Creating a directory at one path leaves every other path alone. -/
theorem lookupFs_ensureDir_ne (fs : Fs) (q r : APath) (now : Nat) (h : q ≠ r) :
    lookupFs (ensureDir fs q now) r = lookupFs fs r := by
  unfold ensureDir
  cases hq : lookupFs fs q with
  | some e => rfl
  | none => rw [lookupFs_cons, if_neg h]

/-- Creating directories at a list of other paths leaves a path alone. -/
theorem lookupFs_mkParentsAux (now : Nat) (qs : List APath) (fs : Fs) (r : APath)
    (h : ∀ q ∈ qs, q ≠ r) : lookupFs (mkParentsAux now fs qs) r = lookupFs fs r := by
  induction qs generalizing fs with
  | nil => rfl
  | cons q rest ih =>
    rw [mkParentsAux]
    rw [ih _ (fun x hx => h x (List.mem_cons_of_mem _ hx))]
    exact lookupFs_ensureDir_ne _ _ _ _ (h q (List.mem_cons_self _ _))

/-- Auto-creating the parents of a path does not touch the path itself. -/
theorem lookupFs_mkParents_self (fs : Fs) (p : APath) (now : Nat) :
    lookupFs (mkParents fs p now) p = lookupFs fs p := by
  apply lookupFs_mkParentsAux
  intro q hq
  simp only [parentsOf, List.mem_map, List.mem_filter, List.mem_range] at hq
  obtain ⟨i, ⟨hilt, hipos⟩, rfl⟩ := hq
  intro hqp
  have hlen : (p.take i).length = i := by
    rw [List.length_take]
    omega
  rw [hqp] at hlen
  omega

/-- C1: for every client-supplied relative path, `resolve` either returns
an absolute path that is Root or lies strictly below Root (so its
canonical form is prefixed by Root plus a separator), or fails with
`PathEscape`; and whenever the lexical normalization of the input joined
to Root falls outside Root — in particular for `../` sequences that
normalize outside Root — it returns `PathEscape` having performed zero
filesystem calls. -/
theorem resolve_confines (root : APath) (st : SymFs) (rel : String) :
    (∀ p calls, resolve root st rel = (.ok p, calls) →
      p = root ∨ ∃ rest, rest ≠ [] ∧ p = root ++ rest) ∧
    (root.isPrefixOf (lexNorm root (splitSlash rel)) = false →
      resolve root st rel = (.error .pathEscape, 0)) := by
  constructor
  · intro p calls h
    unfold resolve at h
    split at h
    · simp at h
    · split at h
      · simp at h
      · rename_i lex _ q n _
        split at h
        · rename_i hp
          have hpq : q = p := by
            have := congrArg Prod.fst h
            simpa using this
          subst hpq
          have hpre : root <+: q := List.isPrefixOf_iff_prefix.mp hp
          obtain ⟨rest, hrest⟩ := hpre
          cases rest with
          | nil => left; rw [← hrest]; simp
          | cons x xs => right; exact ⟨x :: xs, by simp, hrest.symm⟩
        · simp at h
  · intro hfail
    unfold resolve resolveLex
    by_cases hbad : (hasNullByte rel = true) ∨ (startsWithSlash rel = true)
    · have : (hasNullByte rel || startsWithSlash rel) = true := by
        rcases hbad with hb | hb <;> simp [hb]
      simp only [Bool.or_eq_true] at this
      rw [if_pos this]
    · have : ¬ ((hasNullByte rel = true) ∨ (startsWithSlash rel = true)) := hbad
      rw [if_neg (by simpa using this)]
      simp only [hfail]
      rfl

/-- C1 witness: inside-Root input `notes.txt` resolves below Root in two
filesystem calls; escaping input `../../etc` is rejected lexically with
`PathEscape` and zero filesystem calls. -/
theorem resolve_confines_witness :
    (resolve ["data"] ⟨[]⟩ "notes.txt" = (.ok ["data", "notes.txt"], 2) ∧
      (["data", "notes.txt"] = ["data"] ∨
        ∃ rest, rest ≠ [] ∧ ["data", "notes.txt"] = ["data"] ++ rest)) ∧
    ((["data"] : APath).isPrefixOf (lexNorm ["data"] (splitSlash "../../etc")) = false ∧
      resolve ["data"] ⟨[]⟩ "../../etc" = (.error .pathEscape, 0)) :=
  ⟨⟨rfl, (resolve_confines ["data"] ⟨[]⟩ "notes.txt").1 ["data", "notes.txt"] 2 rfl⟩,
   ⟨rfl, (resolve_confines ["data"] ⟨[]⟩ "../../etc").2 rfl⟩⟩

/-- The UTF-8 byte length of a run of `n` ASCII characters is `n`. -/
theorem utf8Len_replicate (n : Nat) :
    String.utf8Len (List.replicate n 'a') = n := by
  induction n with
  | zero => rfl
  | succ k ih =>
    rw [List.replicate_succ]
    show String.utf8Len (List.replicate k 'a') + Char.utf8Size 'a' = k + 1
    rw [ih]
    have h1 : Char.utf8Size 'a' = 1 := by decide
    omega

/-- C2: a TextPayload whose UTF-8 encoded length exceeds 524288 bytes is
rejected by `writeText` with `TooLarge`, the filesystem state after the
call is the state before it, and in particular the content of the target
file is byte-for-byte what it was before the call. -/
theorem writeText_rejects_oversized (fs : Fs) (p : APath) (content : String) (now : Nat)
    (h : 524288 < content.utf8ByteSize) :
    writeText fs p content now = (.error .tooLarge, fs) ∧
    (writeText fs p content now).2 = fs ∧
    contentAt (writeText fs p content now).2 p = contentAt fs p := by
  have h1 : writeText fs p content now = (.error .tooLarge, fs) := by
    unfold writeText MAX_TEXT_BYTES
    rw [if_pos h]
  exact ⟨h1, by rw [h1], by rw [h1]⟩

/-- C2 witness: a 524289-byte ASCII payload is rejected with `TooLarge`
and a store holding `hi` at the target still holds `hi` afterwards. -/
theorem writeText_rejects_oversized_witness :
    524288 < (String.mk (List.replicate 524289 'a')).utf8ByteSize ∧
    (writeText [(["data", "notes.txt"], .file ⟨"hi", 0⟩)] ["data", "notes.txt"]
        (String.mk (List.replicate 524289 'a')) 7 =
      (.error .tooLarge, [(["data", "notes.txt"], .file ⟨"hi", 0⟩)]) ∧
      (writeText [(["data", "notes.txt"], .file ⟨"hi", 0⟩)] ["data", "notes.txt"]
          (String.mk (List.replicate 524289 'a')) 7).2 =
        [(["data", "notes.txt"], .file ⟨"hi", 0⟩)] ∧
      contentAt (writeText [(["data", "notes.txt"], .file ⟨"hi", 0⟩)] ["data", "notes.txt"]
          (String.mk (List.replicate 524289 'a')) 7).2 ["data", "notes.txt"] =
        contentAt [(["data", "notes.txt"], .file ⟨"hi", 0⟩)] ["data", "notes.txt"]) :=
  have hbig : 524288 < (String.mk (List.replicate 524289 'a')).utf8ByteSize := by
    show 524288 < String.utf8Len (List.replicate 524289 'a')
    rw [utf8Len_replicate]
    omega
  ⟨hbig, writeText_rejects_oversized _ _ _ _ hbig⟩

/-- C5: when `a` exists and `b` does not, `rename a b` succeeds and
`rename b a` after it restores the original layout at every path; and
whenever the destination already exists, `rename` fails with
`AlreadyExists` and leaves both the source and the destination
unchanged. -/
theorem rename_roundtrip (fs : Fs) (a b : APath) :
    (∀ e, lookupFs fs a = some e → lookupFs fs b = none →
      (rename fs a b).1 = .ok () ∧
      (rename (rename fs a b).2 b a).1 = .ok () ∧
      ∀ q, lookupFs (rename (rename fs a b).2 b a).2 q = lookupFs fs q) ∧
    (∀ e, lookupFs fs b = some e →
      rename fs a b = (.error .alreadyExists, fs) ∧
      lookupFs (rename fs a b).2 a = lookupFs fs a ∧
      lookupFs (rename fs a b).2 b = lookupFs fs b) := by
  constructor
  · intro e ha hb
    have hab : a ≠ b := by
      intro hh
      rw [hh, hb] at ha
      exact Option.noConfusion ha
    have h1 : rename fs a b = (.ok (), setEntry (eraseEntry fs a) b e) := by
      unfold rename
      rw [hb, ha]
    have hfs1a : lookupFs (setEntry (eraseEntry fs a) b e) a = none := by
      rw [lookupFs_setEntry, if_neg (fun hh => hab hh.symm), lookupFs_eraseEntry, if_pos rfl]
    have hfs1b : lookupFs (setEntry (eraseEntry fs a) b e) b = some e := by
      rw [lookupFs_setEntry, if_pos rfl]
    have h2 : rename (setEntry (eraseEntry fs a) b e) b a =
        (.ok (), setEntry (eraseEntry (setEntry (eraseEntry fs a) b e) b) a e) := by
      unfold rename
      rw [hfs1a, hfs1b]
    refine ⟨by rw [h1], by rw [h1]; exact congrArg Prod.fst h2, ?_⟩
    intro q
    rw [h1]
    show lookupFs (rename (setEntry (eraseEntry fs a) b e) b a).2 q = lookupFs fs q
    rw [h2]
    show lookupFs (setEntry (eraseEntry (setEntry (eraseEntry fs a) b e) b) a e) q =
      lookupFs fs q
    rw [lookupFs_setEntry]
    by_cases hqa : a = q
    · rw [if_pos hqa, ← hqa, ha]
    · rw [if_neg hqa, lookupFs_eraseEntry]
      by_cases hqb : b = q
      · rw [if_pos hqb, ← hqb, hb]
      · rw [if_neg hqb, lookupFs_setEntry, if_neg hqb, lookupFs_eraseEntry, if_neg hqa]
  · intro e hbex
    have h1 : rename fs a b = (.error .alreadyExists, fs) := by
      unfold rename
      rw [hbex]
    exact ⟨h1, by rw [h1], by rw [h1]⟩

/-- C5 witness: renaming `notes.txt` onto absent `memo.txt` and back
restores the one-file layout; renaming onto existing `other.txt` fails
with `AlreadyExists` leaving both files untouched. -/
theorem rename_roundtrip_witness :
    (lookupFs [(["data", "notes.txt"], .file ⟨"hi", 0⟩)] ["data", "notes.txt"] =
        some (.file ⟨"hi", 0⟩) ∧
      lookupFs [(["data", "notes.txt"], .file ⟨"hi", 0⟩)] ["data", "memo.txt"] = none ∧
      ∀ q, lookupFs (rename (rename [(["data", "notes.txt"], .file ⟨"hi", 0⟩)]
          ["data", "notes.txt"] ["data", "memo.txt"]).2
          ["data", "memo.txt"] ["data", "notes.txt"]).2 q =
        lookupFs [(["data", "notes.txt"], .file ⟨"hi", 0⟩)] q) ∧
    (lookupFs [(["data", "a.txt"], .file ⟨"x", 0⟩), (["data", "b.txt"], .file ⟨"y", 0⟩)]
        ["data", "b.txt"] = some (.file ⟨"y", 0⟩) ∧
      rename [(["data", "a.txt"], .file ⟨"x", 0⟩), (["data", "b.txt"], .file ⟨"y", 0⟩)]
          ["data", "a.txt"] ["data", "b.txt"] =
        (.error .alreadyExists,
          [(["data", "a.txt"], .file ⟨"x", 0⟩), (["data", "b.txt"], .file ⟨"y", 0⟩)])) :=
  ⟨⟨rfl, rfl,
    ((rename_roundtrip [(["data", "notes.txt"], .file ⟨"hi", 0⟩)]
        ["data", "notes.txt"] ["data", "memo.txt"]).1 (.file ⟨"hi", 0⟩) rfl rfl).2.2⟩,
   ⟨rfl,
    ((rename_roundtrip [(["data", "a.txt"], .file ⟨"x", 0⟩), (["data", "b.txt"], .file ⟨"y", 0⟩)]
        ["data", "a.txt"] ["data", "b.txt"]).2 (.file ⟨"y", 0⟩) rfl).1⟩⟩

/-- C6: `touch` on an existing file succeeds and leaves the stored content
byte-for-byte unchanged — only the modification timestamp changes to the
current time — and `touch` on an absent path creates an empty file; it
never truncates existing content. -/
theorem touch_preserves_content (fs : Fs) (p : APath) (now : Nat) :
    (∀ a, lookupFs fs p = some (.file a) →
      (touch fs p now).1 = .ok () ∧
      lookupFs (touch fs p now).2 p = some (.file ⟨a.content, now⟩) ∧
      contentAt (touch fs p now).2 p = contentAt fs p) ∧
    (lookupFs fs p = none →
      (touch fs p now).1 = .ok () ∧
      contentAt (touch fs p now).2 p = some "") := by
  constructor
  · intro a ha
    have h1 : touch fs p now = (.ok (), setEntry fs p (.file ⟨a.content, now⟩)) := by
      unfold touch
      rw [ha]
    refine ⟨by rw [h1], ?_, ?_⟩
    · rw [h1]
      show lookupFs (setEntry fs p (.file ⟨a.content, now⟩)) p = _
      rw [lookupFs_setEntry, if_pos rfl]
    · rw [h1]
      show contentAt (setEntry fs p (.file ⟨a.content, now⟩)) p = contentAt fs p
      unfold contentAt
      rw [lookupFs_setEntry, if_pos rfl, ha]
  · intro hnone
    have hsz : ¬ (MAX_TEXT_BYTES < String.utf8ByteSize "") := by decide
    have hw : writeText fs p "" now =
        (.ok (String.utf8ByteSize ""), setEntry (mkParents fs p now) p (.file ⟨"", now⟩)) := by
      unfold writeText
      rw [if_neg hsz]
    have h1 : touch fs p now = (.ok (), setEntry (mkParents fs p now) p (.file ⟨"", now⟩)) := by
      unfold touch
      rw [hnone, hw]
    refine ⟨by rw [h1], ?_⟩
    rw [h1]
    show contentAt (setEntry (mkParents fs p now) p (.file ⟨"", now⟩)) p = some ""
    unfold contentAt
    rw [lookupFs_setEntry, if_pos rfl]

/-- C6 witness: touching existing `notes.txt` holding `hi` keeps content
`hi` while the mtime becomes the call time; touching absent `new.txt`
creates an empty file. -/
theorem touch_preserves_content_witness :
    (lookupFs [(["data", "notes.txt"], .file ⟨"hi", 0⟩)] ["data", "notes.txt"] =
        some (.file ⟨"hi", 0⟩) ∧
      lookupFs (touch [(["data", "notes.txt"], .file ⟨"hi", 0⟩)] ["data", "notes.txt"] 9).2
          ["data", "notes.txt"] = some (.file ⟨"hi", 9⟩) ∧
      contentAt (touch [(["data", "notes.txt"], .file ⟨"hi", 0⟩)] ["data", "notes.txt"] 9).2
          ["data", "notes.txt"] =
        contentAt [(["data", "notes.txt"], .file ⟨"hi", 0⟩)] ["data", "notes.txt"]) ∧
    (lookupFs [(["data", "notes.txt"], .file ⟨"hi", 0⟩)] ["data", "new.txt"] = none ∧
      contentAt (touch [(["data", "notes.txt"], .file ⟨"hi", 0⟩)] ["data", "new.txt"] 9).2
          ["data", "new.txt"] = some "") :=
  ⟨⟨rfl,
    ((touch_preserves_content [(["data", "notes.txt"], .file ⟨"hi", 0⟩)]
        ["data", "notes.txt"] 9).1 ⟨"hi", 0⟩ rfl).2⟩,
   ⟨rfl,
    ((touch_preserves_content [(["data", "notes.txt"], .file ⟨"hi", 0⟩)]
        ["data", "new.txt"] 9).2 rfl).2⟩⟩

/-- C7: every successful `list` of a directory yields entries that are all
direct children (non-recursive), with `sizeBytes = none` exactly on the
directory entries and `sizeBytes = some n` (a natural number, hence
≥ 0) on the file entries; and every direct child present in the store is
represented by an entry. -/
theorem listDir_shape (fs : Fs) (p : APath) (entries : List FileEntry)
    (h : listDir fs p = .ok entries) :
    (∀ e ∈ entries, isChildOf p e.path = true ∧
      (e.isDirectory = true → e.sizeBytes = none) ∧
      (e.isDirectory = false → ∃ n, e.sizeBytes = some n)) ∧
    (∀ q ent, (q, ent) ∈ fs → isChildOf p q = true → ∃ e ∈ entries, e.path = q) := by
  unfold listDir at h
  split at h
  · exact absurd h (by simp)
  · exact absurd h (by simp)
  · have hent : entries = (fs.filter (fun e => isChildOf p e.1)).map (fun e => entryOf e.1 e.2) := by
      have := h
      simp only [Except.ok.injEq] at this
      exact this.symm
    subst hent
    constructor
    · intro e he
      obtain ⟨⟨q, ent⟩, hmem, rfl⟩ := List.mem_map.mp he
      have hchild := (List.mem_filter.mp hmem).2
      cases ent with
      | file a => exact ⟨hchild, by simp [entryOf], by simp [entryOf]⟩
      | dir m => exact ⟨hchild, by simp [entryOf], by simp [entryOf]⟩
    · intro q ent hmem hchild
      refine ⟨entryOf q ent, List.mem_map.mpr ⟨(q, ent), List.mem_filter.mpr ⟨hmem, hchild⟩, rfl⟩, ?_⟩
      cases ent <;> rfl

/-- C7 witness: listing the `data` directory of a store with one file and
one subdirectory yields an entry for each direct child, the file child
carrying `some` size and the directory child carrying `none`. -/
theorem listDir_shape_witness :
    listDir [(["data"], .dir 0), (["data", "notes.txt"], .file ⟨"hi", 1⟩),
        (["data", "sub"], .dir 2)] ["data"] =
      .ok [⟨["data", "notes.txt"], false, some 2, 1⟩, ⟨["data", "sub"], true, none, 2⟩] ∧
    (∀ e ∈ [FileEntry.mk ["data", "notes.txt"] false (some 2) 1,
        FileEntry.mk ["data", "sub"] true none 2],
      isChildOf ["data"] e.path = true ∧
      (e.isDirectory = true → e.sizeBytes = none) ∧
      (e.isDirectory = false → ∃ n, e.sizeBytes = some n)) :=
  ⟨rfl,
   (listDir_shape [(["data"], .dir 0), (["data", "notes.txt"], .file ⟨"hi", 1⟩),
      (["data", "sub"], .dir 2)] ["data"]
      [⟨["data", "notes.txt"], false, some 2, 1⟩, ⟨["data", "sub"], true, none, 2⟩] rfl).1⟩

/-- C4: `parse` fails with `UnknownCommand` whenever the first token names
none of `ls`, `cat`, `rm`, `touch`, `mv`, and with `BadArgCount` whenever
the verb is known but the argument count differs from the fixed arity
table `ls` 0, `cat` 1, `rm` 1, `touch` 1, `mv` 2; both checks are made by
the parser alone, which takes no filesystem state, so they precede any
filesystem access.  (The §4.4 dispatcher text instead shows `ls [dir]`
with an optional argument; the parser is modelled on its own §4.3
table, where `ls` takes zero arguments.) -/
theorem parse_checks_verb_and_arity (raw : String) :
    (arity .ls = 0 ∧ arity .cat = 1 ∧ arity .rm = 1 ∧ arity .touch = 1 ∧ arity .mv = 2) ∧
    (∀ s, verbOfToken s = none ↔
      s ≠ "ls" ∧ s ≠ "cat" ∧ s ≠ "rm" ∧ s ≠ "touch" ∧ s ≠ "mv") ∧
    (∀ v args, tokenize raw = v :: args → verbOfToken v = none →
      parse raw = .error .unknownCommand) ∧
    (∀ v args vb, tokenize raw = v :: args → verbOfToken v = some vb →
      args.length ≠ arity vb → parse raw = .error .badArgCount) ∧
    (∀ v args vb, tokenize raw = v :: args → verbOfToken v = some vb →
      args.length = arity vb → parse raw = .ok ⟨raw, vb, args⟩) := by
  refine ⟨⟨rfl, rfl, rfl, rfl, rfl⟩, ?_, ?_, ?_, ?_⟩
  · intro s
    unfold verbOfToken
    by_cases h1 : s = "ls"
    · simp [h1]
    · by_cases h2 : s = "cat"
      · simp [h1, h2]
      · by_cases h3 : s = "rm"
        · simp [h1, h2, h3]
        · by_cases h4 : s = "touch"
          · simp [h1, h2, h3, h4]
          · by_cases h5 : s = "mv"
            · simp [h1, h2, h3, h4, h5]
            · simp [h1, h2, h3, h4, h5]
  · intro v args htok hverb
    unfold parse
    rw [htok]
    simp only [hverb]
  · intro v args vb htok hverb hlen
    unfold parse
    rw [htok]
    simp only [hverb, if_neg hlen]
  · intro v args vb htok hverb hlen
    unfold parse
    rw [htok]
    simp only [hverb, if_pos hlen]

/-- C4 witness: `echo hello` fails with `UnknownCommand`; `cat` with two
arguments fails with `BadArgCount`; `mv a b` parses with the arity-2
verb `mv`. -/
theorem parse_checks_verb_and_arity_witness :
    (tokenize "echo hello" = ["echo", "hello"] ∧ verbOfToken "echo" = none ∧
      parse "echo hello" = .error .unknownCommand) ∧
    (tokenize "cat a.txt b.txt" = ["cat", "a.txt", "b.txt"] ∧
      verbOfToken "cat" = some .cat ∧
      parse "cat a.txt b.txt" = .error .badArgCount) ∧
    (tokenize "mv a b" = ["mv", "a", "b"] ∧
      parse "mv a b" = .ok ⟨"mv a b", .mv, ["a", "b"]⟩) :=
  ⟨⟨rfl, rfl,
    (parse_checks_verb_and_arity "echo hello").2.2.1 "echo" ["hello"] rfl rfl⟩,
   ⟨rfl, rfl,
    (parse_checks_verb_and_arity "cat a.txt b.txt").2.2.2.1 "cat" ["a.txt", "b.txt"] .cat
      rfl rfl (by decide)⟩,
   ⟨rfl,
    (parse_checks_verb_and_arity "mv a b").2.2.2.2 "mv" ["a", "b"] .mv rfl rfl rfl⟩⟩

/-- C3: `execute` is a total function returning a well-formed
`{outputLines, error}` result: every failing Filesystem Operations Engine
call surfaces as the human-readable error kind in the `error` field,
every successful call yields its output lines with a `none` error, and
the `error` field is `none` exactly when the engine call succeeded — no
fault propagates past the dispatcher. -/
theorem execute_catches_engine_failures (root : APath) (fs : Fs) (inv : CommandInvocation)
    (now : Nat) :
    (∀ e fs1, engineCall root fs inv now = (.error e, fs1) →
      execute root fs inv now = (⟨[], some (errMsg e)⟩, fs1)) ∧
    (∀ lines fs1, engineCall root fs inv now = (.ok lines, fs1) →
      execute root fs inv now = (⟨lines, none⟩, fs1)) ∧
    ((execute root fs inv now).1.error = none ↔
      ∃ lines fs1, engineCall root fs inv now = (.ok lines, fs1)) := by
  refine ⟨?_, ?_, ?_⟩
  · intro e fs1 h
    unfold execute
    rw [h]
  · intro lines fs1 h
    unfold execute
    rw [h]
  · cases hc : engineCall root fs inv now with
    | mk r fs1 =>
      unfold execute
      rw [hc]
      cases r with
      | ok lines => exact ⟨fun _ => ⟨lines, fs1, rfl⟩, fun _ => rfl⟩
      | error e =>
        constructor
        · intro hh
          exact absurd hh (by simp)
        · rintro ⟨l, f, hlf⟩
          exact absurd (congrArg Prod.fst hlf) (by simp)

/-- C3 witness: the §8 scenario `rm missing.txt` on an empty Root — the
engine fails with `NotFound` and the dispatcher returns a well-formed
result carrying the failure in its `error` field, not a fault. -/
theorem execute_catches_engine_failures_witness :
    engineCall ["data"] [(["data"], .dir 0)] ⟨"rm missing.txt", .rm, ["missing.txt"]⟩ 1 =
      (.error .notFound, [(["data"], .dir 0)]) ∧
    execute ["data"] [(["data"], .dir 0)] ⟨"rm missing.txt", .rm, ["missing.txt"]⟩ 1 =
      (⟨[], some "NotFound"⟩, [(["data"], .dir 0)]) :=
  ⟨rfl,
   (execute_catches_engine_failures ["data"] [(["data"], .dir 0)]
      ⟨"rm missing.txt", .rm, ["missing.txt"]⟩ 1).1 .notFound [(["data"], .dir 0)] rfl⟩

end FileDrop

namespace Dashboard

/-- C8: after every call to `appendTerminal`, the terminal line buffer
holds at most 400 lines, and the lines kept are exactly the most recent
ones of the previous buffer followed by the new lines, in order — a
suffix of length `min(total, 400)`, so the oldest lines are dropped
first; when the total fits within 400, nothing is dropped. -/
theorem appendTerminal_keeps_latest (current lines : List String) :
    (appendTerminal current lines).length ≤ 400 ∧
    appendTerminal current lines <:+ (current ++ lines) ∧
    (appendTerminal current lines).length = min (current ++ lines).length 400 ∧
    ((current ++ lines).length ≤ 400 → appendTerminal current lines = current ++ lines) := by
  unfold appendTerminal
  refine ⟨?_, List.drop_suffix _ _, ?_, ?_⟩
  · simp [List.length_drop]
    omega
  · simp [List.length_drop]
    omega
  · intro h
    have h2 : current.length + lines.length - 400 = 0 := by
      simp [List.length_append] at h
      omega
    simp [h2]

/-- C8 witness: appending two lines to the one-line boot buffer keeps all
three lines, in order. -/
theorem appendTerminal_keeps_latest_witness :
    (["ready"] ++ ["a", "b"]).length ≤ 400 ∧
    appendTerminal ["ready"] ["a", "b"] = ["ready", "a", "b"] :=
  ⟨by decide, (appendTerminal_keeps_latest ["ready"] ["a", "b"]).2.2.2 (by decide)⟩

/-- C9: `formatBytes 0` is the string `0 B`; for `1 ≤ bytes < 1024⁴` the
unit index `⌊log bytes / log 1024⌋` falls inside the four-element units
array, so the result ends in one of `B`, `KB`, `MB`, `GB`; and for
`bytes ≥ 1024⁴` the index is out of the array's range. -/
theorem formatBytes_unit_range (b : Nat) :
    formatBytes 0 = "0 B" ∧
    (1 ≤ b → b < 1024 ^ 4 →
      fbIdx b < fbUnits.length ∧ ∃ u ∈ fbUnits, ∃ v, formatBytes b = v ++ " " ++ u) ∧
    (1024 ^ 4 ≤ b → fbUnits.length ≤ fbIdx b ∧ fbUnits.get? (fbIdx b) = none) := by
  refine ⟨by simp [formatBytes], ?_, ?_⟩
  · intro h1 h2
    have hb0 : b ≠ 0 := by omega
    have hlt : fbIdx b < 4 := Nat.log_lt_of_lt_pow hb0 h2
    have hlen : fbUnits.length = 4 := by decide
    refine ⟨by omega, ?_⟩
    refine ⟨fbUnits.getD (fbIdx b) "undefined", ?_,
      fbValueString b (fbIdx b), by simp [formatBytes, hb0]⟩
    set k := fbIdx b with hk
    interval_cases k <;> decide
  · intro h
    have hb0 : b ≠ 0 := by positivity
    have h4 : 4 ≤ fbIdx b :=
      (Nat.pow_le_iff_le_log (by norm_num : (1:ℕ) < 1024) hb0).mp h
    have hlen : fbUnits.length = 4 := by decide
    refine ⟨by omega, ?_⟩
    rw [List.get?_eq_none]
    omega

/-- C9 witness: `5` bytes lies in range and formats with a valid unit;
`1024⁴` bytes pushes the index past the end of the units array. -/
theorem formatBytes_unit_range_witness :
    ((1:Nat) ≤ 5 ∧ (5:Nat) < 1024 ^ 4 ∧
      (fbIdx 5 < fbUnits.length ∧ ∃ u ∈ fbUnits, ∃ v, formatBytes 5 = v ++ " " ++ u)) ∧
    ((1024:Nat) ^ 4 ≤ 1024 ^ 4 ∧
      (fbUnits.length ≤ fbIdx (1024 ^ 4) ∧ fbUnits.get? (fbIdx (1024 ^ 4)) = none)) :=
  ⟨⟨by decide, by norm_num, (formatBytes_unit_range 5).2.1 (by decide) (by norm_num)⟩,
   ⟨le_refl _, (formatBytes_unit_range (1024 ^ 4)).2.2 (le_refl _)⟩⟩

/-- C10: `handleResponse` throws exactly when the response is not `ok` —
carrying the body text, or the phrase `Request failed with <status>` when
the body is empty — and on an `ok` response returns the JSON-parsed body
when the content-type includes `application/json` and the raw body text
otherwise. -/
theorem handleResponse_throws_iff_not_ok (r : HttpResponse) :
    ((∃ msg, handleResponse r = .error msg) ↔ r.ok = false) ∧
    (r.ok = false → handleResponse r =
      .error (if r.bodyText = "" then "Request failed with " ++ toString r.status
              else r.bodyText)) ∧
    (r.ok = true → handleResponse r =
      .ok (if ctIsJson r.contentType then .jsonBody r.bodyText
           else .textBody r.bodyText)) := by
  obtain ⟨ok, status, body, ct⟩ := r
  cases ok
  · simp [handleResponse]
  · simp [handleResponse]
    refine ⟨fun x => ?_, ?_⟩
    · split <;> simp
    · split <;> simp_all

/-- C10 witness: a failed response with empty body throws the status-code
message; an `ok` JSON response returns the JSON-parsed body. -/
theorem handleResponse_throws_iff_not_ok_witness :
    (HttpResponse.mk false 404 "" none).ok = false ∧
    handleResponse (HttpResponse.mk false 404 "" none) = .error "Request failed with 404" ∧
    (HttpResponse.mk true 200 "[1]" (some "application/json")).ok = true ∧
    handleResponse (HttpResponse.mk true 200 "[1]" (some "application/json")) =
      .ok (.jsonBody "[1]") := by
  refine ⟨rfl, ?_, rfl, ?_⟩
  · have h := (handleResponse_throws_iff_not_ok (HttpResponse.mk false 404 "" none)).2.1 rfl
    simpa using h
  · have h := (handleResponse_throws_iff_not_ok
      (HttpResponse.mk true 200 "[1]" (some "application/json"))).2.2 rfl
    rw [h]
    have hct : ctIsJson (some "application/json") = true := by decide
    rw [hct]
    simp

end Dashboard
